import Mathlib

/-!
Verification development for the file-handler layer (FileHandler.h):
the resource-access subsystem (OpenedResourceFile, LoadedResource), the
resource context stack, and the path/identity model (FileSpecifier).

Shallow embedding conventions:
* byte values and unsigned 32-bit type codes are `Nat` (reduced mod 2^32
  where overflow matters), 16-bit resource ids are `Int`;
* `std::string` contents are `List Char` for paths and `List Nat`
  (byte values, compared unsigned as `memcmp` does) for directory entries;
* a resource container's directory is an association list from
  (type, id) to the payload bytes;
* heap buffers are modelled by `Option` (none = null / unloaded), and
  operations that free memory additionally return the list of buffers
  (or descriptors) they released, so "frees nothing twice" is expressible.
-/

namespace FileHandler

/-- Modelled from the spec: the FOUR_CHARS_TO_INT macro (defined in the
cseries headers, not under src/) packs four 8-bit characters into one
unsigned 32-bit type code, first character in the most significant byte. -/
def FOUR_CHARS_TO_INT (t1 t2 t3 t4 : Nat) : Nat :=
  (t1 % 256) * 16777216 + (t2 % 256) * 65536 + (t3 % 256) * 256 + (t4 % 256)

/-- Payload bytes of one resource record. -/
abbrev Bytes := List Nat

/-- A resource directory: the in-memory index a resource container file
decodes to, mapping (type-code, numeric id) to payload bytes.  Keys are
unique per (type, id) pair; `resLookup` returns the first match. -/
abbrev ResourceDir := List ((Nat × Int) × Bytes)

/-- Look up a (type, id) entry in a resource directory. -/
def resLookup (ty : Nat) (id : Int) : ResourceDir → Option Bytes
  | [] => none
  | (k, b) :: rest => if k.1 = ty ∧ k.2 = id then some b else resLookup ty id rest

/-- `LoadedResource` (SDL arm): owns one malloc()ed buffer `p`
(`none` models the NULL / unloaded state).  The buffer value stands for
the address together with the pointed-to bytes. -/
structure LoadedResource where
  p : Option Bytes
deriving DecidableEq

/-- Modelled from the spec: `LoadedResource::IsLoaded` (body not under
src/) — whether the object currently owns a buffer. -/
def LoadedResource.IsLoaded (r : LoadedResource) : Bool := r.p.isSome

/-- Modelled from the spec: `LoadedResource::GetLength` (body not under
src/) — size of the owned buffer, with 0 as the unloaded sentinel. -/
def LoadedResource.GetLength (r : LoadedResource) : Nat :=
  match r.p with
  | some b => b.length
  | none => 0

/-- Modelled from the spec: `LoadedResource::Detach` (body not under
src/) — transfers buffer ownership out, leaving the object in the
unloaded, owns-nothing state. -/
def LoadedResource.Detach (_r : LoadedResource) : LoadedResource := ⟨none⟩

/-- Modelled from the spec: `LoadedResource::GetPointer(DoDetach)` (body
not under src/) — returns the owned buffer's address, and when
`DoDetach` is set additionally detaches it.  Result is (returned
pointer, object state after the call). -/
def LoadedResource.GetPointer (r : LoadedResource) (DoDetach : Bool) :
    Option Bytes × LoadedResource :=
  (r.p, if DoDetach then r.Detach else r)

/-- Modelled from the spec: `LoadedResource::Unload` (body not under
src/) — frees the owned buffer and resets to the unloaded state.
Result is (object state, list of buffers freed by the call). -/
def LoadedResource.Unload (r : LoadedResource) : LoadedResource × List Bytes :=
  (⟨none⟩, match r.p with
           | some b => [b]
           | none => [])

/-- The destructor `~LoadedResource() {Unload();}` (inline in
FileHandler.h): auto-unload when destroying. -/
def LoadedResource.destruct (r : LoadedResource) : LoadedResource × List Bytes :=
  r.Unload

/-- `OpenedResourceFile` (SDL arm): the open byte-stream handle `f`
(`none` = closed; a descriptor number stands for the SDL_RWops pointer)
plus the resource directory decoded from the file. -/
structure OpenedResourceFile where
  f : Option Nat
  dir : ResourceDir
deriving DecidableEq

/-- Modelled from the spec: `OpenedResourceFile::Check(Type, ID)` (body
not under src/) — returns whether an entry exists, without
materializing it. -/
def OpenedResourceFile.Check (rf : OpenedResourceFile) (ty : Nat) (id : Int) : Bool :=
  (resLookup ty id rf.dir).isSome

/-- Modelled from the spec: `OpenedResourceFile::Get(Type, ID, Rsrc)`
(body not under src/) — on hit, binds a buffer holding the entry's
bytes to the output object and returns true; on miss, returns false
without mutating the output object.  Result is (return value, output
argument after the call). -/
def OpenedResourceFile.Get (rf : OpenedResourceFile) (ty : Nat) (id : Int)
    (rsrc : LoadedResource) : Bool × LoadedResource :=
  match resLookup ty id rf.dir with
  | some b => (true, ⟨some b⟩)
  | none => (false, rsrc)

/-- The four-character overload of `Check`, inline in FileHandler.h:
`Check(t1,t2,t3,t4,ID) {return Check(FOUR_CHARS_TO_INT(t1,t2,t3,t4), ID);}` -/
def OpenedResourceFile.Check4 (rf : OpenedResourceFile)
    (t1 t2 t3 t4 : Nat) (id : Int) : Bool :=
  rf.Check (FOUR_CHARS_TO_INT t1 t2 t3 t4) id

/-- The four-character overload of `Get`, inline in FileHandler.h:
`Get(t1,t2,t3,t4,ID,Rsrc) {return Get(FOUR_CHARS_TO_INT(t1,t2,t3,t4), ID, Rsrc);}` -/
def OpenedResourceFile.Get4 (rf : OpenedResourceFile)
    (t1 t2 t3 t4 : Nat) (id : Int) (rsrc : LoadedResource) : Bool × LoadedResource :=
  rf.Get (FOUR_CHARS_TO_INT t1 t2 t3 t4) id rsrc

end FileHandler

namespace FileHandler

/-- The `SND1` type code of the spec's concrete scenario. -/
def sndType : Nat := FOUR_CHARS_TO_INT 83 78 68 49

/-- The spec's concrete container: (SND1, 100) ↦ [1,2,3] and
(SND1, 200) ↦ [] (zero length). -/
def sampleDir : ResourceDir := [((sndType, 100), [1, 2, 3]), ((sndType, 200), [])]

/-- Modelled from the spec: the ambient resource-context state the
Push/Pop pair manipulates (the SDL/Mac implementation bodies are not
under src/).  `current` is the currently topmost (file, resource
directory) context (`none` = no current resource file), `saved` is the
LIFO record of previously-active contexts, and `resLoad` is the
"resources loadable" flag (the SetResLoad state). -/
structure ResContextState where
  current : Option (Nat × ResourceDir)
  saved : List (Option (Nat × ResourceDir))
  resLoad : Bool
deriving DecidableEq

/-- The initial "no current resource file" state with the given flag. -/
def ResContextState.initial (b : Bool) : ResContextState := ⟨none, [], b⟩

/-- The (file, resource directory) context of an opened resource file:
the descriptor together with the decoded directory (0 for a closed
handle never arises in pushed states we consider). -/
def OpenedResourceFile.ctx (rf : OpenedResourceFile) : Nat × ResourceDir :=
  (match rf.f with
   | some h => h
   | none => 0, rf.dir)

/-- Modelled from the spec: `OpenedResourceFile::Push` (body not under
src/) — saves the current top context (even the "no current context"
state is a valid saved value), makes this file's context the top one,
and leaves SetResLoad in the state of true. -/
def OpenedResourceFile.Push (rf : OpenedResourceFile) (s : ResContextState) :
    ResContextState :=
  ⟨some rf.ctx, s.current :: s.saved, true⟩

/-- Modelled from the spec: `OpenedResourceFile::Pop` (body not under
src/) — restores the most recently saved context in strict LIFO order.
A Pop with nothing saved is a caller bug; it leaves the state alone. -/
def popCtx (s : ResContextState) : ResContextState :=
  match s.saved with
  | [] => s
  | c :: rest => ⟨c, rest, s.resLoad⟩

/-- `OpenedFile` (SDL arm): the open handle `f` (`none` = closed; a
descriptor number stands for the SDL_RWops pointer) and the sticky
error code. -/
structure OpenedFile where
  f : Option Nat
  err : Int
deriving DecidableEq

/-- A default-constructed, never-opened `OpenedFile`. -/
def OpenedFile.initial : OpenedFile := ⟨none, 0⟩

/-- Modelled from the spec: `OpenedFile::IsOpen` (body not under src/). -/
def OpenedFile.IsOpen (s : OpenedFile) : Bool := s.f.isSome

/-- Modelled from the spec: `OpenedFile::Close` (body not under src/) —
releases the underlying descriptor if one is held and leaves the handle
closed; safe to invoke repeatedly.  Result is (handle state after the
call, list of descriptors released by the call). -/
def OpenedFile.Close (s : OpenedFile) : OpenedFile × List Nat :=
  match s.f with
  | some h => (⟨none, s.err⟩, [h])
  | none => (s, [])

/-- The destructor `~OpenedFile() {Close();}` (inline in FileHandler.h):
auto-close when destroying. -/
def OpenedFile.destruct (s : OpenedFile) : OpenedFile × List Nat := s.Close

/-- Modelled from the spec: `OpenedResourceFile::IsOpen` (body not under
src/). -/
def OpenedResourceFile.IsOpen (rf : OpenedResourceFile) : Bool := rf.f.isSome

/-- Modelled from the spec: `OpenedResourceFile::Close` (body not under
src/) — releases the opened file and invalidates the resource
directory; safe to call when already closed.  Result is (state after
the call, list of descriptors released by the call). -/
def OpenedResourceFile.Close (rf : OpenedResourceFile) : OpenedResourceFile × List Nat :=
  match rf.f with
  | some h => (⟨none, []⟩, [h])
  | none => (rf, [])

/-- The destructor `~OpenedResourceFile() {Close();}` (inline in
FileHandler.h): auto-close when destroying. -/
def OpenedResourceFile.destruct (rf : OpenedResourceFile) :
    OpenedResourceFile × List Nat :=
  rf.Close

/-- A path is a list of characters; the canonical separator is a slash. -/
abbrev Path := List Char

/-- Collapse every run of consecutive separators to a single one. -/
def collapseSep : Path → Path
  | [] => []
  | [c] => [c]
  | c :: d :: rest =>
      if c = '/' ∧ d = '/' then collapseSep (d :: rest)
      else c :: collapseSep (d :: rest)

/-- Drop one trailing separator, if any. -/
def dropTrailingSep (l : Path) : Path :=
  if l.getLast? = some '/' then l.dropLast else l

/-- Modelled from the spec: `FileSpecifier::canonicalize_path` (body not
under src/) — brings a caller-supplied path into the single canonical
separator form: runs of separators are collapsed and a trailing
separator is dropped, so that appends insert no duplicate separator at
the join point. -/
def canonicalize_path (l : Path) : Path := dropTrailingSep (collapseSep l)

/-- A path has no two adjacent separators (the form `collapseSep`
produces and preserves). -/
def noDoubleSep : Path → Bool
  | [] => true
  | [_] => true
  | c :: d :: rest => if c = '/' ∧ d = '/' then false else noDoubleSep (d :: rest)

/-- `FileSpecifier` (SDL arm): the identity is the canonical path-name
string (`name`) plus the sticky error code. -/
structure FileSpecifier where
  name : Path
  err : Int
deriving DecidableEq

/-- The string constructor `FileSpecifier(const string &s)` (inline in
FileHandler.h): stores the name, clears the error and canonicalizes. -/
def FileSpecifier.ofPath (s : Path) : FileSpecifier := ⟨canonicalize_path s, 0⟩

/-- `FileSpecifier::operator==` (inline in FileHandler.h): identity
equality is name equality; the error code does not take part. -/
def FileSpecifier.beq (a b : FileSpecifier) : Bool := a.name = b.name

/-- Modelled from the spec: the string-level part of
`FileSpecifier::AddPart` (body not under src/) — appends a path segment
with correct separator insertion (no duplicate or missing separator at
the join point) and re-canonicalizes. -/
def addPart (name part : Path) : Path :=
  canonicalize_path (if name ≠ [] ∧ name.getLast? = some '/'
                     then name ++ part
                     else name ++ '/' :: part)

/-- `FileSpecifier::AddPart` on the identity object. -/
def FileSpecifier.AddPart (fs : FileSpecifier) (part : Path) : FileSpecifier :=
  ⟨addPart fs.name part, fs.err⟩

/-- Helper for `SplitPath`: splits at the LAST separator, returning
(text before it, text after it), or `none` when no separator occurs. -/
def splitAtLastSep : Path → Option (Path × Path)
  | [] => none
  | c :: rest =>
      match splitAtLastSep rest with
      | some (p, leaf) => some (c :: p, leaf)
      | none => if c = '/' then some ([], rest) else none

/-- Modelled from the spec: the string-level part of
`FileSpecifier::SplitPath` (body not under src/) — divides an identity
into (parent-directory name, leaf name), the inverse of append: the
parent is everything before the last separator (the whole name when
there is no separator, a bare separator when it is leading) and the
leaf is everything after it. -/
def splitPath (name : Path) : Path × Path :=
  match splitAtLastSep name with
  | none => (name, [])
  | some ([], leaf) => (['/'], leaf)
  | some (p, leaf) => (p, leaf)

/-- `FileSpecifier::SplitPath(DirectorySpecifier&, string&)` (inline in
FileHandler.h): the parent is assigned to a specifier, which constructs
from the string and therefore canonicalizes. -/
def FileSpecifier.SplitPath (fs : FileSpecifier) : FileSpecifier × Path :=
  (FileSpecifier.ofPath (splitPath fs.name).1, (splitPath fs.name).2)

/-- Membership of a path in the set of existing files, which we model as
an explicit finite list supplied by the environment. -/
def pathMem (p : Path) : List Path → Bool
  | [] => false
  | q :: rest => if p = q then true else pathMem p rest

/-- Modelled from the spec: `FileSpecifier::SetNameWithPath` (body not
under src/) — walks the ordered search-path list of base directories
and binds the identity to the first base under which the relative path
exists, returning true; when no base yields an existing file it returns
false and leaves the identity unchanged.  `search` is the configured
search path, `existing` the set of existing files.  Result is (return
value, identity after the call). -/
def SetNameWithPath (search existing : List Path) (rel : Path)
    (fs : FileSpecifier) : Bool × FileSpecifier :=
  match search with
  | [] => (false, fs)
  | b :: rest =>
      if pathMem (addPart b rel) existing then (true, ⟨addPart b rel, fs.err⟩)
      else SetNameWithPath rest existing rel fs

/-- `dir_entry` (inline in FileHandler.h): one directory listing entry.
The name is the `std::string` as a byte list (`operator<` on
`std::string` compares unsigned byte values). -/
structure dir_entry where
  name : List Nat
  size : Int
  is_directory : Bool
  is_volume : Bool
deriving DecidableEq

/-- Lexicographic (byte-wise, shorter-run-wins) order on byte strings:
the `std::string` `operator<`. -/
def strLt : List Nat → List Nat → Bool
  | [], [] => false
  | [], _ :: _ => true
  | _ :: _, [] => false
  | a :: as, b :: bs => if a < b then true else if b < a then false else strLt as bs

/-- `dir_entry::operator<` (inline in FileHandler.h): entries of the
same kind compare by name; otherwise directories sort before files
(`is_directory > other.is_directory` under the C++ bool-to-int
promotion). -/
def dir_entry.lt (a b : dir_entry) : Bool :=
  if a.is_directory = b.is_directory then strLt a.name b.name
  else decide ((if b.is_directory then (1 : Nat) else 0) <
               (if a.is_directory then (1 : Nat) else 0))

/-- C1: the resource context stack is strict LIFO with unbounded depth:
popping after a push restores exactly the previously current context and
the previously saved stack, whatever their depth; the concrete sequence
Push(A); Push(B); Pop(); Pop() from the no-current-file state exposes
exactly A's context after the first Pop (not B's, whenever their
directories differ) and restores the original no-current-file state
after the second. -/
theorem resource_context_stack_lifo :
    (∀ (rf : OpenedResourceFile) (s : ResContextState),
        (popCtx (rf.Push s)).current = s.current ∧
        (popCtx (rf.Push s)).saved = s.saved) ∧
    (∀ (A B : OpenedResourceFile) (b : Bool),
        (popCtx (B.Push (A.Push (ResContextState.initial b)))).current = some A.ctx ∧
        (A.dir ≠ B.dir →
          (popCtx (B.Push (A.Push (ResContextState.initial b)))).current ≠ some B.ctx) ∧
        (popCtx (popCtx (B.Push (A.Push (ResContextState.initial b))))).current = none ∧
        (popCtx (popCtx (B.Push (A.Push (ResContextState.initial b))))).saved = []) := by
  constructor
  · intro rf s
    exact ⟨rfl, rfl⟩
  · intro A B b
    refine ⟨rfl, ?_, rfl, rfl⟩
    intro hne heq
    apply hne
    have h2 : A.ctx = B.ctx := by
      have h1 : some A.ctx = some B.ctx := heq
      exact Option.some.inj h1
    exact congrArg Prod.snd h2

/-- Witness for C1 at concrete contexts. -/
theorem resource_context_stack_lifo_witness :
    (popCtx (OpenedResourceFile.Push ⟨some 2, []⟩
      (OpenedResourceFile.Push ⟨some 1, sampleDir⟩
        (ResContextState.initial false)))).current =
          some (OpenedResourceFile.ctx ⟨some 1, sampleDir⟩) ∧
    (popCtx (OpenedResourceFile.Push ⟨some 2, []⟩
      (OpenedResourceFile.Push ⟨some 1, sampleDir⟩
        (ResContextState.initial false)))).current ≠
          some (OpenedResourceFile.ctx ⟨some 2, []⟩) := by
  have h := resource_context_stack_lifo.2 ⟨some 1, sampleDir⟩ ⟨some 2, []⟩ false
  exact ⟨h.1, h.2.1 (by decide)⟩

/-- C2: for every (type, id) entry stored in a resource container with
payload bytes B, `Check` returns true and `Get` succeeds, binding a
resource whose length is B's length and whose buffer holds exactly the
bytes B; zero-length entries yield length 0 with a valid (non-null)
pointer. -/
theorem check_get_reproduce_stored_bytes
    (rf : OpenedResourceFile) (ty : Nat) (id : Int) (B : Bytes)
    (rsrc : LoadedResource) (h : resLookup ty id rf.dir = some B) :
    rf.Check ty id = true ∧
    rf.Get ty id rsrc = (true, ⟨some B⟩) ∧
    (rf.Get ty id rsrc).2.GetLength = B.length ∧
    ((rf.Get ty id rsrc).2.GetPointer false).1 = some B ∧
    ((rf.Get ty id rsrc).2.GetPointer false).1 ≠ none ∧
    (rf.Get ty id rsrc).2.IsLoaded = true := by
  simp [OpenedResourceFile.Check, OpenedResourceFile.Get, h,
        LoadedResource.GetLength, LoadedResource.GetPointer, LoadedResource.IsLoaded]

/-- Witness for C2: the spec's concrete container, both the 3-byte entry
(SND1, 100) and the zero-length entry (SND1, 200). -/
theorem check_get_reproduce_stored_bytes_witness :
    OpenedResourceFile.Check ⟨some 1, sampleDir⟩ sndType 100 = true ∧
    (OpenedResourceFile.Get ⟨some 1, sampleDir⟩ sndType 100 ⟨none⟩).2.GetLength = 3 ∧
    ((OpenedResourceFile.Get ⟨some 1, sampleDir⟩ sndType 100 ⟨none⟩).2.GetPointer false).1 =
      some [1, 2, 3] ∧
    OpenedResourceFile.Check ⟨some 1, sampleDir⟩ sndType 200 = true ∧
    (OpenedResourceFile.Get ⟨some 1, sampleDir⟩ sndType 200 ⟨none⟩).2.GetLength = 0 ∧
    ((OpenedResourceFile.Get ⟨some 1, sampleDir⟩ sndType 200 ⟨none⟩).2.GetPointer false).1 ≠
      none := by
  have h1 := check_get_reproduce_stored_bytes ⟨some 1, sampleDir⟩ sndType 100 [1, 2, 3]
    ⟨none⟩ (by decide)
  have h2 := check_get_reproduce_stored_bytes ⟨some 1, sampleDir⟩ sndType 200 []
    ⟨none⟩ (by decide)
  refine ⟨h1.1, ?_, h1.2.2.2.1, h2.1, ?_, h2.2.2.2.2.1⟩
  · rw [h1.2.2.1]; rfl
  · rw [h2.2.2.1]; rfl

/-- C3: for every (type, id) pair not present in the resource directory,
`Check` returns false and `Get` returns false while leaving the output
LoadedResource argument completely unchanged. -/
theorem check_get_missing_no_mutation
    (rf : OpenedResourceFile) (ty : Nat) (id : Int) (rsrc : LoadedResource)
    (h : resLookup ty id rf.dir = none) :
    rf.Check ty id = false ∧
    rf.Get ty id rsrc = (false, rsrc) := by
  simp [OpenedResourceFile.Check, OpenedResourceFile.Get, h]

/-- Witness for C3: (SND1, 300) is absent from the spec's concrete
container; the output object keeps its prior buffer untouched. -/
theorem check_get_missing_no_mutation_witness :
    OpenedResourceFile.Check ⟨some 1, sampleDir⟩ sndType 300 = false ∧
    OpenedResourceFile.Get ⟨some 1, sampleDir⟩ sndType 300 ⟨some [9]⟩ =
      (false, ⟨some [9]⟩) :=
  check_get_missing_no_mutation ⟨some 1, sampleDir⟩ sndType 300 ⟨some [9]⟩ (by decide)

/-- C4: `SetNameWithPath` binds the identity to the resolved form under
the FIRST base directory (in search-path order) for which the relative
path exists and returns true; when no base yields an existing file it
returns false and the identity is exactly what it was before the call. -/
theorem set_name_with_path_first_base
    (search existing : List Path) (rel : Path) (fs : FileSpecifier) :
    SetNameWithPath search existing rel fs =
      match search.find? (fun b => pathMem (addPart b rel) existing) with
      | some b => (true, ⟨addPart b rel, fs.err⟩)
      | none => (false, fs) := by
  induction search with
  | nil => rfl
  | cons b rest ih =>
      cases hb : pathMem (addPart b rel) existing with
      | true => simp [SetNameWithPath, hb, List.find?_cons_of_pos _ hb]
      | false =>
          rw [List.find?_cons_of_neg _ (by simp [hb])]
          simpa [SetNameWithPath, hb] using ih

/-- C6: after every call to `Push`, regardless of the state of the
"resources loadable" (SetResLoad) flag at the moment of the call, that
flag is true. -/
theorem push_leaves_res_load_true :
    ∀ (rf : OpenedResourceFile) (s : ResContextState), (rf.Push s).resLoad = true :=
  fun _ _ => rfl

/-- C7: `Close` is idempotent and always safe, for `OpenedFile` and
`OpenedResourceFile` alike: closing leaves the handle closed, closing
again releases nothing, a never-opened handle closes releasing nothing,
and a Close followed by the destructor (which invokes Close) releases
the underlying descriptor exactly once in total. -/
theorem close_idempotent_and_safe :
    ∀ (s : OpenedFile) (rf : OpenedResourceFile),
      (s.Close).1.IsOpen = false ∧
      (s.Close).1.Close = ((s.Close).1, []) ∧
      ((s.Close).2 ++ ((s.Close).1.destruct).2 =
        match s.f with
        | some h => [h]
        | none => []) ∧
      OpenedFile.initial.Close = (OpenedFile.initial, []) ∧
      (rf.Close).1.IsOpen = false ∧
      (rf.Close).1.Close = ((rf.Close).1, []) ∧
      ((rf.Close).2 ++ ((rf.Close).1.destruct).2 =
        match rf.f with
        | some h => [h]
        | none => []) := by
  intro s rf
  obtain ⟨sf, serr⟩ := s
  obtain ⟨rff, rfdir⟩ := rf
  cases sf <;> cases rff <;>
    simp [OpenedFile.Close, OpenedFile.IsOpen, OpenedFile.destruct,
          OpenedFile.initial, OpenedResourceFile.Close, OpenedResourceFile.IsOpen,
          OpenedResourceFile.destruct]

/-- C8: detaching (GetPointer with DoDetach = true) returns the owned
buffer's address unchanged; afterwards IsLoaded is false and a
subsequent Unload, or the destructor, frees nothing, so the caller-held
buffer survives the object's destruction intact. -/
theorem detach_transfers_ownership
    (r : LoadedResource) (buf : Bytes) (h : r.p = some buf) :
    (r.GetPointer true).1 = some buf ∧
    ((r.GetPointer true).2).IsLoaded = false ∧
    ((r.GetPointer true).2).Unload = (⟨none⟩, []) ∧
    ((r.GetPointer true).2).destruct = (⟨none⟩, []) := by
  simp [LoadedResource.GetPointer, LoadedResource.Detach, LoadedResource.IsLoaded,
        LoadedResource.Unload, LoadedResource.destruct, h]

/-- Witness for C8 at a concrete loaded resource. -/
theorem detach_transfers_ownership_witness :
    (LoadedResource.GetPointer ⟨some [7, 8]⟩ true).1 = some [7, 8] ∧
    ((LoadedResource.GetPointer ⟨some [7, 8]⟩ true).2).IsLoaded = false ∧
    ((LoadedResource.GetPointer ⟨some [7, 8]⟩ true).2).Unload = (⟨none⟩, []) ∧
    ((LoadedResource.GetPointer ⟨some [7, 8]⟩ true).2).destruct = (⟨none⟩, []) :=
  detach_transfers_ownership ⟨some [7, 8]⟩ [7, 8] rfl

/-- C9: the four-character overloads agree with the uint32 versions:
`Check(t1,t2,t3,t4,ID)` equals `Check(FOUR_CHARS_TO_INT(t1,t2,t3,t4), ID)`
and likewise for `Get`, with identical effects on the output
LoadedResource. -/
theorem four_char_overloads_agree :
    ∀ (rf : OpenedResourceFile) (t1 t2 t3 t4 : Nat) (id : Int)
      (rsrc : LoadedResource),
      rf.Check4 t1 t2 t3 t4 id = rf.Check (FOUR_CHARS_TO_INT t1 t2 t3 t4) id ∧
      rf.Get4 t1 t2 t3 t4 id rsrc = rf.Get (FOUR_CHARS_TO_INT t1 t2 t3 t4) id rsrc :=
  fun _ _ _ _ _ _ _ => ⟨rfl, rfl⟩

theorem strLt_irrefl : ∀ a : List Nat, strLt a a = false := by
  intro a
  induction a with
  | nil => rfl
  | cons x xs ih => simp [strLt, ih]

theorem strLt_trans : ∀ a b c : List Nat,
    strLt a b = true → strLt b c = true → strLt a c = true := by
  intro a
  induction a with
  | nil =>
      intro b c hab hbc
      cases b with
      | nil => exact hbc
      | cons y ys =>
          cases c with
          | nil => simp [strLt] at hbc
          | cons z zs => rfl
  | cons x xs ih =>
      intro b c hab hbc
      cases b with
      | nil => simp [strLt] at hab
      | cons y ys =>
          cases c with
          | nil => simp [strLt] at hbc
          | cons z zs =>
              simp only [strLt] at hab hbc ⊢
              by_cases hxy : x < y
              · by_cases hyz : y < z
                · simp [Nat.lt_trans hxy hyz]
                · by_cases hzy : z < y
                  · simp [hyz, hzy] at hbc
                  · have hyz2 : y = z := Nat.le_antisymm (Nat.le_of_not_lt hzy) (Nat.le_of_not_lt hyz)
                    simp [hyz2 ▸ hxy]
              · by_cases hyx : y < x
                · simp [hxy, hyx] at hab
                · have hxy2 : x = y := Nat.le_antisymm (Nat.le_of_not_lt hyx) (Nat.le_of_not_lt hxy)
                  subst hxy2
                  simp only [hxy, if_false, if_neg (Nat.lt_irrefl x)] at hab ⊢
                  by_cases hyz : x < z
                  · simp [hyz]
                  · by_cases hzy : z < x
                    · simp [hyz, hzy] at hbc
                    · simp only [if_neg hyz, if_neg hzy] at hbc ⊢
                      exact ih ys zs hab hbc

theorem strLt_eq_of_incomp : ∀ a b : List Nat,
    strLt a b = false → strLt b a = false → a = b := by
  intro a
  induction a with
  | nil =>
      intro b hab _
      cases b with
      | nil => rfl
      | cons y ys => simp [strLt] at hab
  | cons x xs ih =>
      intro b hab hba
      cases b with
      | nil => simp [strLt] at hba
      | cons y ys =>
          simp only [strLt] at hab hba
          by_cases hxy : x < y
          · simp [hxy] at hab
          · by_cases hyx : y < x
            · simp [hxy, hyx] at hba
            · have hxy2 : x = y := Nat.le_antisymm (Nat.le_of_not_lt hyx) (Nat.le_of_not_lt hxy)
              subst hxy2
              simp only [if_neg hxy, if_neg (Nat.lt_irrefl x)] at hab hba
              rw [ih ys hab hba]

theorem dir_entry_lt_incomp_iff (a b : dir_entry) :
    (dir_entry.lt a b = false ∧ dir_entry.lt b a = false) ↔
      (a.is_directory = b.is_directory ∧ strLt a.name b.name = false ∧
        strLt b.name a.name = false) := by
  obtain ⟨an, asz, ad, av⟩ := a
  obtain ⟨bn, bsz, bd, bv⟩ := b
  cases ad <;> cases bd <;> simp [dir_entry.lt]

/-- C10: `dir_entry::operator<` places every directory entry strictly
before every non-directory entry, orders two entries of the same kind by
ascending lexicographic comparison of their names, and is a strict weak
ordering: irreflexive, transitive, and with transitive incomparability. -/
theorem dir_entry_lt_sorts_directories_first :
    (∀ a b : dir_entry, a.is_directory = true → b.is_directory = false →
       dir_entry.lt a b = true ∧ dir_entry.lt b a = false) ∧
    (∀ a b : dir_entry, a.is_directory = b.is_directory →
       dir_entry.lt a b = strLt a.name b.name) ∧
    (∀ a : dir_entry, dir_entry.lt a a = false) ∧
    (∀ a b c : dir_entry, dir_entry.lt a b = true → dir_entry.lt b c = true →
       dir_entry.lt a c = true) ∧
    (∀ a b c : dir_entry,
       dir_entry.lt a b = false → dir_entry.lt b a = false →
       dir_entry.lt b c = false → dir_entry.lt c b = false →
       dir_entry.lt a c = false ∧ dir_entry.lt c a = false) := by
  refine ⟨?_, ?_, ?_, ?_, ?_⟩
  · intro a b ha hb
    simp [dir_entry.lt, ha, hb]
  · intro a b h
    simp [dir_entry.lt, h]
  · intro a
    simp [dir_entry.lt, strLt_irrefl]
  · intro a b c hab hbc
    obtain ⟨an, asz, ad, av⟩ := a
    obtain ⟨bn, bsz, bd, bv⟩ := b
    obtain ⟨cn, csz, cd, cv⟩ := c
    cases ad <;> cases bd <;> cases cd <;>
      simp_all [dir_entry.lt] <;> exact strLt_trans _ _ _ hab hbc
  · intro a b c hab hba hbc hcb
    have h1 := (dir_entry_lt_incomp_iff a b).mp ⟨hab, hba⟩
    have h2 := (dir_entry_lt_incomp_iff b c).mp ⟨hbc, hcb⟩
    have hd : a.is_directory = c.is_directory := h1.1.trans h2.1
    have hn : a.name = c.name :=
      (strLt_eq_of_incomp _ _ h1.2.1 h1.2.2).trans (strLt_eq_of_incomp _ _ h2.2.1 h2.2.2)
    have h3 := (dir_entry_lt_incomp_iff a c).mpr
      ⟨hd, by rw [hn]; exact ⟨strLt_irrefl _, strLt_irrefl _⟩⟩
    exact h3

/-- Witness for C10: a concrete directory entry sorts strictly before a
concrete plain-file entry even though its name is lexicographically
larger. -/
theorem dir_entry_lt_sorts_directories_first_witness :
    dir_entry.lt ⟨[100], 0, true, false⟩ ⟨[97], 3, false, false⟩ = true ∧
    dir_entry.lt ⟨[97], 3, false, false⟩ ⟨[100], 0, true, false⟩ = false :=
  dir_entry_lt_sorts_directories_first.1 ⟨[100], 0, true, false⟩ ⟨[97], 3, false, false⟩
    rfl rfl

theorem collapseSep_length_le : ∀ l : Path, (collapseSep l).length ≤ l.length := by
  intro l
  induction l with
  | nil => simp [collapseSep]
  | cons c rest ih =>
      cases rest with
      | nil => simp [collapseSep]
      | cons d rest2 =>
          by_cases h : c = '/' ∧ d = '/'
          · simp only [collapseSep, if_pos h]
            exact Nat.le_trans ih (Nat.le_succ _)
          · simp only [collapseSep, if_neg h, List.length_cons]
            exact Nat.succ_le_succ ih

theorem collapseSep_of_noDoubleSep : ∀ l : Path, noDoubleSep l = true → collapseSep l = l := by
  intro l
  induction l with
  | nil => intro _; rfl
  | cons c rest ih =>
      intro h
      cases rest with
      | nil => rfl
      | cons d rest2 =>
          by_cases hc : c = '/' ∧ d = '/'
          · simp [noDoubleSep, hc] at h
          · simp only [noDoubleSep, if_neg hc] at h
            simp only [collapseSep, if_neg hc]
            rw [ih h]

theorem noDoubleSep_of_collapseSep_fix : ∀ l : Path, collapseSep l = l → noDoubleSep l = true := by
  intro l
  induction l with
  | nil => intro _; rfl
  | cons c rest ih =>
      intro h
      cases rest with
      | nil => rfl
      | cons d rest2 =>
          by_cases hc : c = '/' ∧ d = '/'
          · exfalso
            simp only [collapseSep, if_pos hc] at h
            have hlen := collapseSep_length_le (d :: rest2)
            rw [h] at hlen
            simp at hlen
          · simp only [collapseSep, if_neg hc, List.cons.injEq, true_and] at h
            simp only [noDoubleSep, if_neg hc]
            exact ih h

theorem canonical_path_parts (l : Path) (h : canonicalize_path l = l) :
    collapseSep l = l ∧ l.getLast? ≠ some '/' := by
  unfold canonicalize_path dropTrailingSep at h
  by_cases hl : (collapseSep l).getLast? = some '/'
  · exfalso
    rw [if_pos hl] at h
    have hne : collapseSep l ≠ [] := by
      intro he
      rw [he] at hl
      simp at hl
    have h1 : 1 ≤ (collapseSep l).length := List.length_pos.mpr hne
    have h2 := collapseSep_length_le l
    have h3 : ((collapseSep l).dropLast).length = (collapseSep l).length - 1 :=
      List.length_dropLast _
    rw [h] at h3
    omega
  · rw [if_neg hl] at h
    exact ⟨h, h ▸ hl⟩

theorem splitAtLastSep_none : ∀ l : Path, splitAtLastSep l = none → ∀ c ∈ l, c ≠ '/' := by
  intro l
  induction l with
  | nil => intro _ c hc; simp at hc
  | cons x rest ih =>
      intro h c hc
      cases hrest : splitAtLastSep rest with
      | some pr => simp [splitAtLastSep, hrest] at h
      | none =>
          by_cases hx : x = '/'
          · simp [splitAtLastSep, hrest, hx] at h
          · rcases List.mem_cons.mp hc with hceq | hcm
            · rw [hceq]; exact hx
            · exact ih hrest c hcm

theorem splitAtLastSep_some : ∀ (l p leaf : Path),
    splitAtLastSep l = some (p, leaf) → l = p ++ '/' :: leaf := by
  intro l
  induction l with
  | nil => intro p leaf h; simp [splitAtLastSep] at h
  | cons x rest ih =>
      intro p leaf h
      cases hrest : splitAtLastSep rest with
      | some pr =>
          obtain ⟨p0, leaf0⟩ := pr
          simp only [splitAtLastSep, hrest] at h
          obtain ⟨hp, hleaf⟩ := Prod.mk.injEq .. ▸ Option.some.inj h
          rw [← hp, ← hleaf]
          simpa using congrArg (x :: ·) (ih p0 leaf0 hrest)
      | none =>
          simp only [splitAtLastSep, hrest] at h
          by_cases hx : x = '/'
          · rw [if_pos hx] at h
            obtain ⟨hp, hleaf⟩ := Prod.mk.injEq .. ▸ Option.some.inj h
            rw [← hp, ← hleaf, hx]
            rfl
          · rw [if_neg hx] at h
            exact absurd h (by simp)

theorem noDoubleSep_append_left : ∀ a b : Path,
    noDoubleSep (a ++ b) = true → noDoubleSep a = true := by
  intro a
  induction a with
  | nil => intro b _; rfl
  | cons c rest ih =>
      intro b h
      cases rest with
      | nil => rfl
      | cons d rest2 =>
          simp only [List.cons_append, noDoubleSep] at h ⊢
          by_cases hc : c = '/' ∧ d = '/'
          · rw [if_pos hc] at h
            exact absurd h (by simp)
          · rw [if_neg hc] at h ⊢
            exact ih b h

theorem getLast_ne_sep_of_noDoubleSep : ∀ (p leaf : Path),
    noDoubleSep (p ++ '/' :: leaf) = true → p.getLast? ≠ some '/' := by
  intro p
  induction p with
  | nil => intro leaf _; simp
  | cons c rest ih =>
      intro leaf h
      cases rest with
      | nil =>
          simp only [List.cons_append, List.nil_append, noDoubleSep] at h
          by_cases hc : c = '/'
          · rw [if_pos ⟨hc, trivial⟩] at h
            exact absurd h (by simp)
          · simp [List.getLast?_singleton, hc]
      | cons d rest2 =>
          rw [List.getLast?_cons_cons]
          simp only [List.cons_append, noDoubleSep] at h
          by_cases hc : c = '/' ∧ d = '/'
          · rw [if_pos hc] at h
            exact absurd h (by simp)
          · rw [if_neg hc] at h
            exact ih leaf h

theorem noDoubleSep_concat_sep : ∀ l : Path,
    (∀ c ∈ l, c ≠ '/') → noDoubleSep (l ++ ['/']) = true := by
  intro l
  induction l with
  | nil => intro _; rfl
  | cons c rest ih =>
      intro h
      cases rest with
      | nil =>
          have hc : c ≠ '/' := h c (by simp)
          simp [noDoubleSep, hc]
      | cons d rest2 =>
          have hc : c ≠ '/' := h c (by simp)
          simp only [List.cons_append, noDoubleSep]
          rw [if_neg (by intro hb; exact hc hb.1)]
          exact ih (fun x hx => h x (List.mem_cons_of_mem c hx))

/-- C5: path split/append round-trip — splitting a canonical identity
with `SplitPath` into a parent-directory identity and a leaf-name
string, then re-appending the leaf to the parent with `AddPart`, yields
an identity equal to the original under `operator==`.  (Every identity
a FileSpecifier holds is canonical: every constructor and mutator runs
`canonicalize_path`.) -/
theorem split_path_add_part_roundtrip (fs : FileSpecifier)
    (h : canonicalize_path fs.name = fs.name) :
    FileSpecifier.beq ((fs.SplitPath).1.AddPart (fs.SplitPath).2) fs = true := by
  obtain ⟨name, err⟩ := fs
  simp only [FileSpecifier.SplitPath, FileSpecifier.AddPart, FileSpecifier.ofPath,
    FileSpecifier.beq, decide_eq_true_eq] at h ⊢
  obtain ⟨hcol, hlast⟩ := canonical_path_parts name h
  have hnds : noDoubleSep name = true := noDoubleSep_of_collapseSep_fix name hcol
  cases hs : splitAtLastSep name with
  | none =>
      have hsplit : splitPath name = (name, []) := by simp [splitPath, hs]
      rw [hsplit]
      simp only
      rw [h]
      have hnoslash := splitAtLastSep_none name hs
      unfold addPart
      rw [if_neg (by intro hb; exact hlast hb.2)]
      unfold canonicalize_path
      rw [collapseSep_of_noDoubleSep _ (noDoubleSep_concat_sep name hnoslash)]
      unfold dropTrailingSep
      rw [if_pos (List.getLast?_concat name)]
      exact List.dropLast_concat ..
  | some pr =>
      obtain ⟨p, leaf⟩ := pr
      have hname : name = p ++ '/' :: leaf := splitAtLastSep_some name p leaf hs
      cases p with
      | nil =>
          have hsplit : splitPath name = (['/'], leaf) := by simp [splitPath, hs]
          rw [hsplit]
          simp only
          have hcansep : canonicalize_path ['/'] = [] := rfl
          rw [hcansep]
          unfold addPart
          rw [if_neg (by intro hb; exact hb.1 rfl)]
          simp only [List.nil_append]
          rw [← List.nil_append ('/' :: leaf), ← hname, h]
      | cons c p2 =>
          have hsplit : splitPath name = (c :: p2, leaf) := by simp [splitPath, hs]
          rw [hsplit]
          simp only
          have hnds2 : noDoubleSep ((c :: p2) ++ '/' :: leaf) = true := hname ▸ hnds
          have hplast : (c :: p2).getLast? ≠ some '/' :=
            getLast_ne_sep_of_noDoubleSep (c :: p2) leaf hnds2
          have hpnds : noDoubleSep (c :: p2) = true :=
            noDoubleSep_append_left (c :: p2) ('/' :: leaf) hnds2
          have hpcan : canonicalize_path (c :: p2) = c :: p2 := by
            unfold canonicalize_path
            rw [collapseSep_of_noDoubleSep _ hpnds]
            unfold dropTrailingSep
            rw [if_neg hplast]
          rw [hpcan]
          unfold addPart
          rw [if_neg (by intro hb; exact hplast hb.2)]
          rw [← hname, h]

/-- Witness for C5 at the concrete canonical identity "a/b". -/
theorem split_path_add_part_roundtrip_witness :
    FileSpecifier.beq
      ((FileSpecifier.SplitPath ⟨['a', '/', 'b'], 0⟩).1.AddPart
        (FileSpecifier.SplitPath ⟨['a', '/', 'b'], 0⟩).2)
      ⟨['a', '/', 'b'], 0⟩ = true :=
  split_path_add_part_roundtrip ⟨['a', '/', 'b'], 0⟩ (by decide)

end FileHandler
